import Mathlib

/-!
Shallow embedding of the journal-club Slack bot (`app.py`): member roster,
presenter rotation with exhaustion reset, the reminder record, the schedule
configuration command, and the weekly reminder scheduling arithmetic.

Files (`members.csv`, `presented.csv`, `reminder.csv`, `config.json`) are
modelled as fields of an explicit system state; `random.choice` is modelled
by an oracle index `k`, picking `remaining[k % remaining.length]`, so every
possible random outcome corresponds to some `k`.  A selection that raises in
Python (`random.choice` on an empty list) is modelled as `Except.error`
carrying the state at the moment of the raise, since the file mutations made
before the raise persist.
-/

namespace SlackBot

/-- One CSV row of `members.csv` / `presented.csv` / `reminder.csv`.
`journal_club = none` models a row whose dict lacks the key (so
`m.get("journal_club", "")` yields `""`). -/
structure Row where
  name : String
  user_id : String
  date : String
  journal_club : Option String
deriving DecidableEq, Repr

/-- The schedule configuration (`config.json` and the module globals
`MEETING_DAY`, `REMINDER_DAY`, `REMINDER_HOUR`). -/
structure Config where
  meeting_day : String
  reminder_day : String
  reminder_hour : String
deriving DecidableEq, Repr

/-- An armed job of the `schedule` library: its tag (from `.tag(...)`),
the weekday name it is registered on, and its at-time in seconds past
midnight of the server clock. -/
structure Job where
  tag : Option String
  day : String
  atSec : Int
deriving DecidableEq, Repr

/-- Abstract content of a `say`/`respond`/`chat_postMessage` call made by a
handler.  Text formatting is out of scope; each constructor records which
message was produced and its payload. -/
inductive Msg where
  | notAuthorized (user : String)
  | usageConfigure
  | invalidDays
  | invalidHour
  | configUpdated (c : Config)
  | presenterAnnounced (r : Row)
  | reminderSent (r : Row)
  | showConfigMsg (c : Config)
  | membersListMsg (rows : List Row)
  | noMembersFound
  | usageAddMember
  | addedMember (r : Row)
  | usageRemoveMember
  | removedMember (id : String)
  | memberNotFound (id : String)
  | noMembersFile
deriving DecidableEq, Repr

/-- The persistent and in-memory state of the bot.
`presentedFile = none` models an absent `presented.csv`;
`reminderFile = none` an absent `reminder.csv`;
`configFile = none` an absent `config.json`.
`lastSelected` is a ghost field recording the most recently selected
presenter (set only on a successful selection); it appears in no guard of
any operation and exists only to state the reminder-record invariant. -/
structure SysState where
  membersFile : List Row
  presentedFile : Option (List Row)
  reminderFile : Option Row
  configFile : Option Config
  cfg : Config
  jobs : List Job
  lastSelected : Option Row
deriving DecidableEq, Repr

/-! ### Python string helpers used by the handlers -/

/-- Whitespace characters recognised by `str.strip()` / `str.split()`
(the ASCII ones; the commands at issue contain only ASCII). -/
def pyIsSpace (c : Char) : Bool :=
  c = ' ' || c = '\t' || c = '\n' || c = '\r' || c = '\x0b' || c = '\x0c'

/-- `str.strip()` on a list of characters. -/
def pyStripL (l : List Char) : List Char :=
  ((l.dropWhile pyIsSpace).reverse.dropWhile pyIsSpace).reverse

/-- `str.strip()`. -/
def pyStrip (s : String) : String :=
  String.mk (pyStripL s.data)

/-- `str.lower()` (ASCII case folding). -/
def pyLower (s : String) : String :=
  String.mk (s.data.map Char.toLower)

/-- Split a character list at every occurrence of `c` (the semantics of
Python `s.split(c)` for a one-character separator). -/
def splitOnCharAux (c : Char) : List Char → List Char → List (List Char)
  | [], acc => [acc.reverse]
  | x :: xs, acc =>
      if x = c then acc.reverse :: splitOnCharAux c xs []
      else splitOnCharAux c xs (x :: acc)

/-- `s.split(":")`. -/
def splitOnColon (s : String) : List String :=
  (splitOnCharAux ':' s.data []).map String.mk

/-- Split on whitespace, keeping empty pieces (helper for `pySplit`). -/
def pySplitAux : List Char → List Char → List (List Char)
  | [], acc => [acc.reverse]
  | x :: xs, acc =>
      if pyIsSpace x then acc.reverse :: pySplitAux xs []
      else pySplitAux xs (x :: acc)

/-- `str.split()` with no argument: split on whitespace runs, dropping
empty pieces. -/
def pySplit (s : String) : List String :=
  ((pySplitAux s.data []).map String.mk).filter (fun p => p ≠ "")

/-- `int(s)` for an all-digit string. -/
def digitsToNat (l : List Char) : Nat :=
  l.foldl (fun a c => 10 * a + (c.toNat - '0'.toNat)) 0

/-- `time.strptime(s, "%H:%M")` succeeds exactly on `H:M` with one- or
two-digit fields, hour 0–23, minute 0–59. -/
def validHHMM (s : String) : Bool :=
  match splitOnColon s with
  | [a, b] =>
      1 ≤ a.length && a.length ≤ 2 && a.data.all Char.isDigit &&
      1 ≤ b.length && b.length ≤ 2 && b.data.all Char.isDigit &&
      digitsToNat a.data ≤ 23 && digitsToNat b.data ≤ 59
  | _ => false

/-- `int(s.split(":")[0]), int(s.split(":")[1])` for a stored `"HH:MM"`
value (total on arbitrary strings; agrees with Python on valid input). -/
def parseHM (s : String) : Int × Int :=
  match splitOnColon s with
  | a :: b :: _ => ((digitsToNat a.data : Int), (digitsToNat b.data : Int))
  | _ => (0, 0)

def valid_days : List String :=
  ["monday", "tuesday", "wednesday", "thursday", "friday", "saturday", "sunday"]

/-! ### Wall-clock arithmetic

Absolute instants are integer seconds from a fixed epoch whose day 0 is a
Monday (matching Python's `weekday()`: Monday = 0 … Sunday = 6).  A fixed
timezone offset `off` (seconds) turns an instant `t` into the wall clock
`t + off` of that zone. -/

/-- Day index of a wall-clock time (`/` on `Int` is floor division,
matching Python's `//` and `datetime` day arithmetic). -/
def wallDay (w : Int) : Int := w / 86400

/-- Weekday (Monday = 0 … Sunday = 6) of a wall-clock time. -/
def wallWeekday (w : Int) : Int := wallDay w % 7

/-- Seconds past midnight of a wall-clock time. -/
def wallTod (w : Int) : Int := w % 86400

/-- `get_server_time_for_santiago(hour, minute)`: take "now" in the
reference (Santiago) zone, replace hour/minute (seconds zeroed), roll to
tomorrow if that instant has already passed, convert the instant to the
server zone, and return only its time of day formatted `"%H:%M"` (seconds
truncated).  Result: at-time in seconds past server midnight. -/
def get_server_time_for_santiago (hour minute : Int)
    (santOff servOff now : Int) : Int :=
  let nowS := now + santOff
  let target0 := wallDay nowS * 86400 + hour * 3600 + minute * 60
  let target1 := if target0 < nowS then target0 + 86400 else target0
  let targetServer := target1 - santOff + servOff
  wallTod targetServer / 60 * 60

/-- `schedule.every().<start_day>.at("HH:MM")._schedule_next_run()` with
`last_run = None`: the `schedule` library's next-run computation for a
weekly job, over the server wall clock.  `startDay` is the weekday index of
`start_day`, `atSec` the parsed at-time, `now` the server wall clock. -/
def scheduleWeeklyNextRun (startDay atSec now : Int) : Int :=
  let nextRun0 := now + 7 * 86400
  let daysAhead0 := startDay - wallWeekday nextRun0
  let daysAhead := if daysAhead0 ≤ 0 then daysAhead0 + 7 else daysAhead0
  let nextRun1 := nextRun0 + (daysAhead - 7) * 86400
  let nextRun2 := wallDay nextRun1 * 86400 + atSec
  if 7 ≤ (nextRun2 - now) / 86400 then nextRun2 - 7 * 86400 else nextRun2

/-- The absolute instant at which the weekly reminder armed by
`reload_schedules` fires next: the at-string comes from
`get_server_time_for_santiago`, the job is registered on weekday `day`
against the server clock. -/
def reminderNextFire (hour minute day santOff servOff now : Int) : Int :=
  let atSec := get_server_time_for_santiago hour minute santOff servOff now
  scheduleWeeklyNextRun day atSec (now + servOff) - servOff

/-! ### Roster / history / reminder operations -/

/-- `get_all_members()`: read `members.csv` and keep the members whose
`journal_club` field, stripped and lowercased, is not `"no"`. -/
def get_all_members (rows : List Row) : List Row :=
  rows.filter (fun m => pyLower (pyStrip (m.journal_club.getD "")) ≠ "no")

/-- `get_presented_members()`: `[]` when the file is absent. -/
def get_presented_members (s : SysState) : List Row :=
  s.presentedFile.getD []

/-- `save_presented_member(member)`: append a row (creating the file with a
header when absent). -/
def save_presented_member (member : Row) (s : SysState) : SysState :=
  { s with presentedFile := some (s.presentedFile.getD [] ++ [member]) }

/-- `reset_presented_list()`: delete `presented.csv` if it exists. -/
def reset_presented_list (s : SysState) : SysState :=
  { s with presentedFile := none }

/-- The reminder write in `select_random_presenter` (lines 210-213):
overwrite `reminder.csv` with the single selected row. -/
def writeReminder (r : Row) (s : SysState) : SysState :=
  { s with reminderFile := some r }

/-- The reminder read in `send_journal_reminder` (lines 276-278): first
data row of `reminder.csv`, or `none` when the file is absent. -/
def readReminder (s : SysState) : Option Row :=
  s.reminderFile

/-- `select_random_presenter()` with random oracle `k`.  On the `IndexError`
raised by `random.choice([])` the error carries the state at the raise
(the reset performed just before may have deleted the history file).
`lastSelected` is the ghost record of the pick. -/
def select_random_presenter (k : Nat) (s : SysState) :
    Except SysState (Row × SysState) :=
  let members := get_all_members s.membersFile
  let presented := get_presented_members s
  let presented_ids := presented.map (fun r => r.user_id)
  let remaining := members.filter (fun m => m.user_id ∉ presented_ids)
  let s1 := if remaining.isEmpty then reset_presented_list s else s
  let remaining1 := if remaining.isEmpty then members else remaining
  match remaining1.get? (k % remaining1.length) with
  | none => .error s1
  | some selected =>
      let s2 := save_presented_member selected s1
      let s3 := writeReminder selected s2
      .ok (selected, { s3 with lastSelected := some selected })

/-! ### Command handlers

Each handler takes the caller's `user_id`, the authorized id, its arguments
and the state, and returns the new state together with the messages sent.
A handler whose body raises past its guard sends nothing further (Bolt
catches the exception; no `say` is reached). -/

/-- `reload_schedules()`: drop every job tagged `"weekly_reminder"`, then arm
one job on `cfg.reminder_day` at the server-converted reminder hour. -/
def reload_schedules (santOff servOff now : Int) (s : SysState) : SysState :=
  let hm := parseHM s.cfg.reminder_hour
  let atSec := get_server_time_for_santiago hm.1 hm.2 santOff servOff now
  { s with jobs :=
      s.jobs.filter (fun j => j.tag ≠ some "weekly_reminder") ++
      [⟨some "weekly_reminder", s.cfg.reminder_day, atSec⟩] }

/-- `/configure_meeting` handler.  `len(parts) != 3` is the wildcard
branch of the match on the split text. -/
def handle_configure_meeting (auth user text : String)
    (santOff servOff now : Int) (s : SysState) : SysState × List Msg :=
  if user ≠ auth then (s, [.notAuthorized user]) else
  match pySplit (pyLower (pyStrip text)) with
  | [meeting_day, reminder_day, reminder_hour] =>
      if meeting_day ∉ valid_days ∨ reminder_day ∉ valid_days then
        (s, [.invalidDays])
      else if ¬ validHHMM reminder_hour then
        (s, [.invalidHour])
      else
        let newCfg : Config := ⟨meeting_day, reminder_day, reminder_hour⟩
        let s1 := { s with cfg := newCfg, configFile := some newCfg }
        let s2 := reload_schedules santOff servOff now s1
        (s2, [.configUpdated newCfg])
  | _ => (s, [.usageConfigure])

/-- `/select_presenter` handler. -/
def handle_select_presenter (auth user : String) (k : Nat) (s : SysState) :
    SysState × List Msg :=
  if user ≠ auth then (s, [.notAuthorized user]) else
  match select_random_presenter k s with
  | .error s' => (s', [])
  | .ok (r, s') => (s', [.presenterAnnounced r])

/-- `send_journal_reminder()`: read the reminder file; message the selected
presenter when a row is present.  No state is written. -/
def send_journal_reminder (s : SysState) : SysState × List Msg :=
  match readReminder s with
  | none => (s, [])
  | some r => (s, [.reminderSent r])

/-- `/show_config` handler. -/
def show_config (auth user : String) (s : SysState) : SysState × List Msg :=
  if user ≠ auth then (s, [.notAuthorized user]) else
  (s, [.showConfigMsg s.cfg])

/-- `/show_members` handler. -/
def show_members (auth user : String) (s : SysState) : SysState × List Msg :=
  if user ≠ auth then (s, [.notAuthorized user]) else
  if s.membersFile.isEmpty then (s, [.noMembersFound])
  else (s, [.membersListMsg s.membersFile])

/-- The argument parsing of `/add_member`: `<name…> <user_id> [<mm-dd>]
<yes/no>`, detecting a date as: at least four arguments, and the
second-to-last has length 5 with `-` at index 2.  `none` models the
too-few-arguments usage error. -/
def add_member_parse (args : List String) : Option Row :=
  if hlen : args.length < 3 then none
  else if hd : 4 ≤ args.length ∧
      (args.get ⟨args.length - 2, by omega⟩).length = 5 ∧
      (args.get ⟨args.length - 2, by omega⟩).data.getD 2 ' ' = '-' then
    some ⟨" ".intercalate (args.take (args.length - 3)),
      args.get ⟨args.length - 3, by omega⟩,
      args.get ⟨args.length - 2, by omega⟩,
      some (pyLower (args.get ⟨args.length - 1, by omega⟩))⟩
  else
    some ⟨" ".intercalate (args.take (args.length - 2)),
      args.get ⟨args.length - 2, by omega⟩,
      "",
      some (pyLower (args.get ⟨args.length - 1, by omega⟩))⟩

/-- `/add_member` handler. -/
def add_member (auth user text : String) (s : SysState) :
    SysState × List Msg :=
  if user ≠ auth then (s, [.notAuthorized user]) else
  match add_member_parse (pySplit (pyStrip text)) with
  | none => (s, [.usageAddMember])
  | some row =>
      ({ s with membersFile := s.membersFile ++ [row] }, [.addedMember row])

/-- `/remove_member` handler. -/
def remove_member (auth user text : String) (s : SysState) :
    SysState × List Msg :=
  if user ≠ auth then (s, [.notAuthorized user]) else
  if pyStrip text = "" then (s, [.usageRemoveMember]) else
  if (s.membersFile.filter
        (fun r => r.user_id ≠ pyStrip text)).length = s.membersFile.length then
    (s, [.memberNotFound (pyStrip text)])
  else
    ({ s with
        membersFile :=
          s.membersFile.filter (fun r => r.user_id ≠ pyStrip text) },
      [.removedMember (pyStrip text)])

/-! ### Event system (for the reachable-state invariant) -/

/-- The operations that can touch the state after startup. -/
inductive Event where
  | selectCmd (user : String) (k : Nat)
  | configureCmd (user text : String) (santOff servOff now : Int)
  | sendReminder
  | showConfigCmd (user : String)
  | showMembersCmd (user : String)
  | addMemberCmd (user text : String)
  | removeMemberCmd (user text : String)

/-- One step of the system, given the authorized user id. -/
def step (auth : String) (e : Event) (s : SysState) : SysState :=
  match e with
  | .selectCmd u k => (handle_select_presenter auth u k s).1
  | .configureCmd u t a b n => (handle_configure_meeting auth u t a b n s).1
  | .sendReminder => (send_journal_reminder s).1
  | .showConfigCmd u => (show_config auth u s).1
  | .showMembersCmd u => (show_members auth u s).1
  | .addMemberCmd u t => (add_member auth u t s).1
  | .removeMemberCmd u t => (remove_member auth u t s).1

/-- Run a list of events. -/
def run (auth : String) (es : List Event) (s : SysState) : SysState :=
  es.foldl (fun s e => step auth e s) s

/-- The startup state: no reminder selected yet. -/
def initState (members : List Row) (presented : Option (List Row))
    (cfg : Config) (jobs : List Job) : SysState :=
  ⟨members, presented, none, none, cfg, jobs, none⟩

/-- Iterated administrative selections (successive `/select_presenter`
invocations by the authorized user), with one random oracle per call. -/
def runSelects (ks : List Nat) (s : SysState) : Except SysState SysState :=
  match ks with
  | [] => .ok s
  | k :: ks' =>
      match select_random_presenter k s with
      | .error s' => .error s'
      | .ok (_, s') => runSelects ks' s'

/-- The `remaining` list computed inside `select_random_presenter`. -/
def eligible_remaining (s : SysState) : List Row :=
  (get_all_members s.membersFile).filter
    (fun m => m.user_id ∉ (get_presented_members s).map (fun r => r.user_id))

theorem eligible_remaining_eq (s : SysState) :
    eligible_remaining s =
      (get_all_members s.membersFile).filter
        (fun m => m.user_id ∉ (get_presented_members s).map (fun r => r.user_id)) :=
  rfl

/-! ### Helper lemmas about `select_random_presenter` -/

theorem get?_mod_mem (l : List Row) (k : Nat) (h : l ≠ []) :
    ∃ r, l.get? (k % l.length) = some r ∧ r ∈ l := by
  have hlen : 0 < l.length := List.length_pos.mpr h
  have hlt : k % l.length < l.length := Nat.mod_lt _ hlen
  exact ⟨l.get ⟨_, hlt⟩, List.get?_eq_get hlt, List.get_mem _ _ _⟩

theorem select_of_remaining_cons (k : Nat) (s : SysState) (x : Row) (xs : List Row)
    (hrem : eligible_remaining s = x :: xs) :
    ∃ r, r ∈ x :: xs ∧
      select_random_presenter k s =
        .ok (r, { s with
            presentedFile := some (s.presentedFile.getD [] ++ [r]),
            reminderFile := some r,
            lastSelected := some r }) := by
  have hrem' : ((get_all_members s.membersFile).filter
      (fun m => m.user_id ∉ (get_presented_members s).map (fun r => r.user_id))) =
      x :: xs := hrem
  obtain ⟨r, hget, hmem⟩ := get?_mod_mem (x :: xs) k (by simp)
  refine ⟨r, hmem, ?_⟩
  unfold select_random_presenter
  simp only [hrem', List.isEmpty_cons, Bool.false_eq_true, if_false, hget,
    save_presented_member, writeReminder]

theorem select_of_remaining_nil (k : Nat) (s : SysState) (x : Row) (xs : List Row)
    (hrem : eligible_remaining s = [])
    (hmem : get_all_members s.membersFile = x :: xs) :
    ∃ r, r ∈ x :: xs ∧
      select_random_presenter k s =
        .ok (r, { s with
            presentedFile := some [r],
            reminderFile := some r,
            lastSelected := some r }) := by
  have hrem' : ((x :: xs).filter
      (fun m => m.user_id ∉ (get_presented_members s).map (fun r => r.user_id))) =
      [] := by rw [← hmem]; exact hrem
  obtain ⟨r, hget, hmemr⟩ := get?_mod_mem (x :: xs) k (by simp)
  refine ⟨r, hmemr, ?_⟩
  unfold select_random_presenter
  simp only [hmem, hrem', List.isEmpty_nil, if_true, hget,
    save_presented_member, writeReminder, reset_presented_list,
    Option.getD_none, List.nil_append]

theorem select_of_all_empty (k : Nat) (s : SysState)
    (hmem : get_all_members s.membersFile = []) :
    select_random_presenter k s = .error (reset_presented_list s) := by
  have hrem : ((get_all_members s.membersFile).filter
      (fun m => m.user_id ∉ (get_presented_members s).map (fun r => r.user_id))) =
      [] := by rw [hmem]; rfl
  unfold select_random_presenter
  simp only [hrem, hmem, List.filter_nil, List.isEmpty_nil, if_true,
    List.length_nil, List.get?]

/-! ### Claim theorems -/

/-- C10: `get_all_members` returns exactly the rows whose `journal_club`
field, stripped and lowercased, differs from `"no"`; a row with a missing
or empty `journal_club` field is eligible. -/
theorem c10_get_all_members_eligibility (rows : List Row) (m : Row) :
    (m ∈ get_all_members rows ↔
      m ∈ rows ∧ pyLower (pyStrip (m.journal_club.getD "")) ≠ "no") ∧
    ((m.journal_club = none ∨ m.journal_club = some "") →
      (m ∈ get_all_members rows ↔ m ∈ rows)) := by
  constructor
  · simp [get_all_members, List.mem_filter]
  · rintro (h | h) <;>
      simp [get_all_members, List.mem_filter, h, pyStrip, pyStripL, pyLower,
        pyIsSpace]

/-- Closed instance of `c10_get_all_members_eligibility`: a row with an
empty `journal_club` field is kept, a `"no"` row is dropped. -/
theorem c10_witness :
    (⟨"a", "U1", "", some ""⟩ : Row) ∈
        get_all_members [⟨"a", "U1", "", some ""⟩, ⟨"b", "U2", "", some "no"⟩] ∧
      (⟨"b", "U2", "", some "no"⟩ : Row) ∉
        get_all_members [⟨"a", "U1", "", some ""⟩, ⟨"b", "U2", "", some "no"⟩] := by
  constructor
  · exact ((c10_get_all_members_eligibility
      [⟨"a", "U1", "", some ""⟩, ⟨"b", "U2", "", some "no"⟩]
      ⟨"a", "U1", "", some ""⟩).2 (Or.inr rfl)).mpr (by decide)
  · intro hmem
    have h := (c10_get_all_members_eligibility
      [⟨"a", "U1", "", some ""⟩, ⟨"b", "U2", "", some "no"⟩]
      ⟨"b", "U2", "", some "no"⟩).1.mp hmem
    exact h.2 (by decide)

/-- C1: over a non-empty eligible roster, with a history whose ids all come
from the roster, `select_random_presenter` succeeds; it picks from
`R \ H` when that is non-empty, and otherwise first clears the history
(so after the pick the history file holds exactly the pick) and picks
from `R`. -/
theorem c1_select_spec (k : Nat) (s : SysState)
    (hR : get_all_members s.membersFile ≠ [])
    (hH : ∀ r ∈ get_presented_members s,
      r.user_id ∈ (get_all_members s.membersFile).map (fun m => m.user_id)) :
    ∃ r s', select_random_presenter k s = .ok (r, s') ∧
      r ∈ get_all_members s.membersFile ∧
      (eligible_remaining s ≠ [] →
        r ∈ get_all_members s.membersFile ∧
        r.user_id ∉ (get_presented_members s).map (fun p => p.user_id)) ∧
      (eligible_remaining s = [] → s'.presentedFile = some [r]) := by
  cases hrem : eligible_remaining s with
  | nil =>
      obtain ⟨x, xs, hmem⟩ := List.exists_cons_of_ne_nil hR
      obtain ⟨r, hmemr, heq⟩ := select_of_remaining_nil k s x xs hrem hmem
      refine ⟨r, _, heq, by rw [hmem]; exact hmemr, ?_, ?_⟩
      · intro h; exact absurd rfl h
      · intro _; rfl
  | cons x xs =>
      obtain ⟨r, hmemr, heq⟩ := select_of_remaining_cons k s x xs hrem
      have hr : r ∈ eligible_remaining s := by rw [hrem]; exact hmemr
      have hfil := List.mem_filter.mp hr
      refine ⟨r, _, heq, hfil.1, ?_, ?_⟩
      · intro _
        exact ⟨hfil.1, by simpa using hfil.2⟩
      · intro h
        exact absurd h (List.cons_ne_nil x xs)

/-- Closed instance of `c1_select_spec`: roster `{U1, U2}`, history `{U1}`;
the pick is the remaining member `U2`. -/
theorem c1_witness :
    ∃ r s', select_random_presenter 0
        ⟨[⟨"a", "U1", "", none⟩, ⟨"b", "U2", "", none⟩],
          some [⟨"a", "U1", "", none⟩], none, none,
          ⟨"monday", "thursday", "23:01"⟩, [], none⟩ = .ok (r, s') ∧
      r ∈ get_all_members [⟨"a", "U1", "", none⟩, ⟨"b", "U2", "", none⟩] := by
  obtain ⟨r, s', heq, hmem, -, -⟩ := c1_select_spec 0
    ⟨[⟨"a", "U1", "", none⟩, ⟨"b", "U2", "", none⟩],
      some [⟨"a", "U1", "", none⟩], none, none,
      ⟨"monday", "thursday", "23:01"⟩, [], none⟩
    (by decide) (by decide)
  exact ⟨r, s', heq, hmem⟩

/-- A concrete state with an empty eligible roster (its only member has
`journal_club = "no"`) and a non-empty presented-history file. -/
def c2state : SysState :=
  ⟨[⟨"a", "U1", "", some "no"⟩], some [⟨"b", "U2", "", some "yes"⟩],
    some ⟨"b", "U2", "", some "yes"⟩, none,
    ⟨"monday", "thursday", "23:01"⟩, [], none⟩

/-- C2 counterexample: with an empty eligible roster and a non-empty
history file, selection raises, but the presented-history file IS mutated
(deleted by the reset that runs first), and the caller of
`/select_presenter` receives no message (the exception skips the `say`). -/
theorem c2_counterexample :
    select_random_presenter 0 c2state =
        .error { c2state with presentedFile := none } ∧
      ({ c2state with presentedFile := none }).presentedFile ≠
        c2state.presentedFile ∧
      (handle_select_presenter "A" "A" 0 c2state).2 = [] := by
  refine ⟨?_, by decide, ?_⟩
  · exact select_of_all_empty 0 c2state (by decide)
  · have h := select_of_all_empty 0 c2state (by decide)
    unfold handle_select_presenter
    rw [if_neg (by decide), h]

/-- C2 amended: if the eligible roster is empty, selection fails by raising
(`random.choice` on `[]`); the reminder record and members file are
unchanged, but the presented-history file is cleared (deleted when it
existed) before the raise, and the caller receives no message. -/
theorem c2_empty_roster_behavior (k : Nat) (u : String) (s : SysState)
    (hR : get_all_members s.membersFile = []) :
    select_random_presenter k s = .error (reset_presented_list s) ∧
      (reset_presented_list s).reminderFile = s.reminderFile ∧
      (reset_presented_list s).membersFile = s.membersFile ∧
      (reset_presented_list s).presentedFile = none ∧
      (handle_select_presenter u u k s).2 = [] := by
  have h := select_of_all_empty k s hR
  refine ⟨h, rfl, rfl, rfl, ?_⟩
  unfold handle_select_presenter
  rw [if_neg (by simp), h]

/-- Closed instance of `c2_empty_roster_behavior` at `c2state`. -/
theorem c2_witness :
    select_random_presenter 0 c2state = .error (reset_presented_list c2state) ∧
      (reset_presented_list c2state).reminderFile = c2state.reminderFile ∧
      (reset_presented_list c2state).membersFile = c2state.membersFile ∧
      (reset_presented_list c2state).presentedFile = none ∧
      (handle_select_presenter "A" "A" 0 c2state).2 = [] :=
  c2_empty_roster_behavior 0 "A" c2state (by decide)

/-- C8: a reminder write followed by a read returns exactly the record
written; after a second write of a different record, a read returns the
new record and never the first. -/
theorem c8_reminder_round_trip (r r' : Row) (s : SysState) (hne : r ≠ r') :
    readReminder (writeReminder r s) = some r ∧
      readReminder (writeReminder r' (writeReminder r s)) = some r' ∧
      readReminder (writeReminder r' (writeReminder r s)) ≠ some r := by
  refine ⟨rfl, rfl, ?_⟩
  intro h
  exact hne (Option.some_injective _ h).symm

/-- Closed instance of `c8_reminder_round_trip`. -/
theorem c8_witness :
    readReminder (writeReminder ⟨"a", "U1", "", none⟩ c2state) =
        some ⟨"a", "U1", "", none⟩ ∧
      readReminder (writeReminder ⟨"b", "U2", "", none⟩
          (writeReminder ⟨"a", "U1", "", none⟩ c2state)) =
        some ⟨"b", "U2", "", none⟩ ∧
      readReminder (writeReminder ⟨"b", "U2", "", none⟩
          (writeReminder ⟨"a", "U1", "", none⟩ c2state)) ≠
        some ⟨"a", "U1", "", none⟩ :=
  c8_reminder_round_trip ⟨"a", "U1", "", none⟩ ⟨"b", "U2", "", none⟩ c2state
    (by decide)

/-- C9: every administrative command invoked by a caller other than the
authorized user id returns the state unchanged and sends exactly the
rejection message. -/
theorem c9_unauthorized_no_state_change (auth user text : String) (k : Nat)
    (a b n : Int) (s : SysState) (h : user ≠ auth) :
    handle_select_presenter auth user k s = (s, [.notAuthorized user]) ∧
      handle_configure_meeting auth user text a b n s =
        (s, [.notAuthorized user]) ∧
      show_config auth user s = (s, [.notAuthorized user]) ∧
      show_members auth user s = (s, [.notAuthorized user]) ∧
      add_member auth user text s = (s, [.notAuthorized user]) ∧
      remove_member auth user text s = (s, [.notAuthorized user]) := by
  unfold handle_select_presenter handle_configure_meeting show_config
    show_members add_member remove_member
  simp only [if_pos h, and_self]

/-- Closed instance of `c9_unauthorized_no_state_change`. -/
theorem c9_witness :
    handle_select_presenter "A" "B" 0 c2state =
        (c2state, [.notAuthorized "B"]) ∧
      handle_configure_meeting "A" "B" "monday friday 09:00" 0 0 0 c2state =
        (c2state, [.notAuthorized "B"]) ∧
      show_config "A" "B" c2state = (c2state, [.notAuthorized "B"]) ∧
      show_members "A" "B" c2state = (c2state, [.notAuthorized "B"]) ∧
      add_member "A" "B" "x U9 yes" c2state = (c2state, [.notAuthorized "B"]) ∧
      remove_member "A" "B" "U9" c2state = (c2state, [.notAuthorized "B"]) :=
  c9_unauthorized_no_state_change "A" "B" "monday friday 09:00" 0 0 0 0 c2state
    (by decide)

/-- C7: an authorized reconfiguration request whose weekday is not one of
the seven lowercase day names, or whose time does not parse as 24-hour
`HH:MM`, is rejected with a message and mutates nothing: in-memory config,
persisted config file, roster, history, reminder and armed jobs are all
exactly as before. -/
theorem c7_configure_invalid_rejected (auth text : String) (a b n : Int)
    (s : SysState) (d1 d2 t : String)
    (hp : pySplit (pyLower (pyStrip text)) = [d1, d2, t])
    (hbad : d1 ∉ valid_days ∨ d2 ∉ valid_days ∨ validHHMM t = false) :
    (handle_configure_meeting auth auth text a b n s).1 = s ∧
      ((handle_configure_meeting auth auth text a b n s).2 = [.invalidDays] ∨
        (handle_configure_meeting auth auth text a b n s).2 = [.invalidHour]) := by
  unfold handle_configure_meeting
  rw [if_neg (by simp)]
  simp only [hp]
  by_cases hdays : d1 ∉ valid_days ∨ d2 ∉ valid_days
  · rw [if_pos hdays]
    exact ⟨rfl, Or.inl rfl⟩
  · rw [if_neg hdays]
    have ht : validHHMM t = false := by
      rcases hbad with h | h | h
      · exact absurd (Or.inl h) hdays
      · exact absurd (Or.inr h) hdays
      · exact h
    rw [if_pos (by simp [ht])]
    exact ⟨rfl, Or.inr rfl⟩

/-- Closed instance of `c7_configure_invalid_rejected`: weekday `"funday"`
and a valid-looking time. -/
theorem c7_witness :
    (handle_configure_meeting "A" "A" "monday funday 09:00" 0 0 0 c2state).1 =
        c2state ∧
      ((handle_configure_meeting "A" "A" "monday funday 09:00" 0 0 0
          c2state).2 = [.invalidDays] ∨
        (handle_configure_meeting "A" "A" "monday funday 09:00" 0 0 0
          c2state).2 = [.invalidHour]) :=
  c7_configure_invalid_rejected "A" "monday funday 09:00" 0 0 0 c2state
    "monday" "funday" "09:00" (by decide) (by decide)

/-- C5: after a valid authorized reconfiguration, the armed jobs tagged
`weekly_reminder` are exactly one job, registered on the new reminder day
at the server conversion of the new reminder time; consequently no armed
weekly-reminder job carries any other (in particular the old) day or
time. -/
theorem c5_reconfigure_single_job (auth text : String) (a b n : Int)
    (s : SysState) (d1 d2 t : String)
    (hp : pySplit (pyLower (pyStrip text)) = [d1, d2, t])
    (hd1 : d1 ∈ valid_days) (hd2 : d2 ∈ valid_days)
    (ht : validHHMM t = true) :
    ((handle_configure_meeting auth auth text a b n s).1.jobs.filter
        (fun j => j.tag = some "weekly_reminder")) =
      [⟨some "weekly_reminder", d2,
        get_server_time_for_santiago (parseHM t).1 (parseHM t).2 a b n⟩] ∧
    ∀ j ∈ (handle_configure_meeting auth auth text a b n s).1.jobs,
      j.tag = some "weekly_reminder" →
        j.day = d2 ∧
        j.atSec = get_server_time_for_santiago (parseHM t).1 (parseHM t).2 a b n := by
  have hmain : (handle_configure_meeting auth auth text a b n s).1.jobs =
      s.jobs.filter (fun j => j.tag ≠ some "weekly_reminder") ++
      [⟨some "weekly_reminder", d2,
        get_server_time_for_santiago (parseHM t).1 (parseHM t).2 a b n⟩] := by
    unfold handle_configure_meeting
    rw [if_neg (by simp)]
    simp only [hp]
    rw [if_neg (by simp [hd1, hd2]), if_neg (by simp [ht])]
    unfold reload_schedules
    rfl
  constructor
  · rw [hmain, List.filter_append, List.filter_filter]
    have h1 : (s.jobs.filter (fun a =>
        decide (a.tag = some "weekly_reminder") &&
        decide (a.tag ≠ some "weekly_reminder"))) = [] := by
      apply List.filter_eq_nil_iff.mpr
      intro j _
      simp
    rw [h1]
    rfl
  · intro j hj htag
    rw [hmain] at hj
    rcases List.mem_append.mp hj with h | h
    · have := (List.mem_filter.mp h).2
      simp only [decide_eq_true_eq] at this
      exact absurd htag this
    · rcases List.mem_singleton.mp h with rfl
      exact ⟨rfl, rfl⟩

/-- Closed instance of `c5_reconfigure_single_job`: reconfigure from a state
armed with the old `(thursday, 23:01)` job to `(friday, 09:00)`. -/
theorem c5_witness :
    (((handle_configure_meeting "A" "A" "monday friday 09:00" 0 0 0
          { c2state with
              jobs := [⟨some "weekly_reminder", "thursday", 82860⟩] }).1.jobs.filter
        (fun j => j.tag = some "weekly_reminder")) =
      [⟨some "weekly_reminder", "friday",
        get_server_time_for_santiago (parseHM "09:00").1 (parseHM "09:00").2
          0 0 0⟩]) :=
  (c5_reconfigure_single_job "A" "monday friday 09:00" 0 0 0
    { c2state with jobs := [⟨some "weekly_reminder", "thursday", 82860⟩] }
    "monday" "friday" "09:00" (by decide) (by decide) (by decide)
    (by decide)).1

/-- Every selection outcome: on failure the reminder record and the ghost
are untouched; on success both become the picked presenter. -/
theorem select_states (k : Nat) (s : SysState) :
    (∃ s₁, select_random_presenter k s = .error s₁ ∧
      s₁.reminderFile = s.reminderFile ∧ s₁.lastSelected = s.lastSelected) ∨
    (∃ r s₁, select_random_presenter k s = .ok (r, s₁) ∧
      s₁.reminderFile = some r ∧ s₁.lastSelected = some r) := by
  cases hrem : eligible_remaining s with
  | cons x xs =>
      obtain ⟨r, -, heq⟩ := select_of_remaining_cons k s x xs hrem
      exact Or.inr ⟨r, _, heq, rfl, rfl⟩
  | nil =>
      cases hmem : get_all_members s.membersFile with
      | nil => exact Or.inl ⟨_, select_of_all_empty k s hmem, rfl, rfl⟩
      | cons x xs =>
          obtain ⟨r, -, heq⟩ := select_of_remaining_nil k s x xs hrem hmem
          exact Or.inr ⟨r, _, heq, rfl, rfl⟩

theorem step_preserves_reminder_ghost (auth : String) (e : Event) (s : SysState)
    (hinv : s.reminderFile = s.lastSelected) :
    (step auth e s).reminderFile = (step auth e s).lastSelected := by
  cases e with
  | selectCmd u k =>
      simp only [step]
      unfold handle_select_presenter
      by_cases hu : u ≠ auth
      · rw [if_pos hu]; exact hinv
      · rw [if_neg hu]
        rcases select_states k s with ⟨s₁, heq, h1, h2⟩ | ⟨r, s₁, heq, h1, h2⟩
        · rw [heq]; rw [h1, h2]; exact hinv
        · rw [heq]; rw [h1, h2]
  | configureCmd u t a b n =>
      simp only [step]
      unfold handle_configure_meeting reload_schedules
      split
      · exact hinv
      · split
        · split
          · exact hinv
          · split
            · exact hinv
            · exact hinv
        · exact hinv
  | sendReminder =>
      simp only [step]
      unfold send_journal_reminder
      split <;> exact hinv
  | showConfigCmd u =>
      simp only [step]
      unfold show_config
      split <;> exact hinv
  | showMembersCmd u =>
      simp only [step]
      unfold show_members
      split
      · exact hinv
      · split <;> exact hinv
  | addMemberCmd u t =>
      simp only [step]
      unfold add_member
      split
      · exact hinv
      · split
        · exact hinv
        · exact hinv
  | removeMemberCmd u t =>
      simp only [step]
      unfold remove_member
      split
      · exact hinv
      · split
        · exact hinv
        · split <;> exact hinv

/-- C6: in every state reachable from startup, the reminder record equals
the most recently selected presenter (the ghost field `lastSelected`,
written only by a successful selection), and in particular is absent
exactly when no presenter has ever been selected in the run. -/
theorem c6_reminder_reflects_last_selected (auth : String) (es : List Event)
    (members : List Row) (presented : Option (List Row)) (cfg : Config)
    (jobs : List Job) :
    (run auth es (initState members presented cfg jobs)).reminderFile =
      (run auth es (initState members presented cfg jobs)).lastSelected := by
  suffices h : ∀ s : SysState, s.reminderFile = s.lastSelected →
      (run auth es s).reminderFile = (run auth es s).lastSelected from
    h _ rfl
  induction es with
  | nil => intro s h; exact h
  | cons e es ih =>
      intro s h
      exact ih _ (step_preserves_reminder_ghost auth e s h)

/-! ### Exhaustion fairness (C4) -/

/-- If a history of roster rows with duplicate-free ids has the same length
as the duplicate-free roster id list, its ids cover every roster id. -/
theorem ids_cover (R h : List Row)
    (hndR : (R.map Row.user_id).Nodup)
    (hsub : ∀ x ∈ h, x ∈ R)
    (hndh : (h.map Row.user_id).Nodup)
    (hlen : h.length = R.length) :
    ∀ m ∈ R, m.user_id ∈ h.map Row.user_id := by
  have hsubids : (h.map Row.user_id) ⊆ (R.map Row.user_id) := by
    intro i hi
    obtain ⟨x, hx, rfl⟩ := List.mem_map.mp hi
    exact List.mem_map.mpr ⟨x, hsub x hx, rfl⟩
  have hcard : ((h.map Row.user_id).toFinset : Finset String) =
      (R.map Row.user_id).toFinset := by
    apply Finset.eq_of_subset_of_card_le
    · intro i hi
      rw [List.mem_toFinset] at hi ⊢
      exact hsubids hi
    · rw [List.toFinset_card_of_nodup hndR, List.toFinset_card_of_nodup hndh]
      simp [hlen]
  intro m hm
  have : m.user_id ∈ ((R.map Row.user_id).toFinset : Finset String) := by
    rw [List.mem_toFinset]
    exact List.mem_map.mpr ⟨m, hm, rfl⟩
  rw [← hcard, List.mem_toFinset] at this
  exact this

/-- A full duplicate-free history contains every roster member exactly
once. -/
theorem full_history_count (R h : List Row)
    (hndR : (R.map Row.user_id).Nodup)
    (hsub : ∀ x ∈ h, x ∈ R)
    (hndh : (h.map Row.user_id).Nodup)
    (hlen : h.length = R.length) :
    ∀ m ∈ R, h.count m = 1 := by
  intro m hm
  obtain ⟨x, hxh, hxid⟩ :=
    List.mem_map.mp (ids_cover R h hndR hsub hndh hlen m hm)
  have hxm : x = m :=
    List.inj_on_of_nodup_map hndR (hsub x hxh) hm hxid
  subst hxm
  exact List.count_eq_one_of_mem (List.Nodup.of_map _ hndh) hxh

/-- One selection in mid-cycle: while the history is a duplicate-free strict
sub-collection of the roster, selection succeeds, picks a not-yet-presented
member and appends it to the history file. -/
theorem select_step_mid (k : Nat) (s : SysState) (mem h : List Row)
    (hm : s.membersFile = mem)
    (hh : get_presented_members s = h)
    (hndR : ((get_all_members mem).map Row.user_id).Nodup)
    (hsub : ∀ x ∈ h, x ∈ get_all_members mem)
    (hndh : (h.map Row.user_id).Nodup)
    (hlt : h.length < (get_all_members mem).length) :
    ∃ r s', select_random_presenter k s = .ok (r, s') ∧
      r ∈ get_all_members mem ∧
      r.user_id ∉ h.map Row.user_id ∧
      s'.membersFile = mem ∧
      s'.presentedFile = some (h ++ [r]) := by
  subst hm
  have hrem : eligible_remaining s ≠ [] := by
    intro hemp
    have hids : ∀ m ∈ get_all_members s.membersFile,
        m.user_id ∈ h.map Row.user_id := by
      intro m hmem
      by_contra hno
      have hmm : m ∈ eligible_remaining s := by
        rw [eligible_remaining_eq]
        refine List.mem_filter.mpr ⟨hmem, ?_⟩
        rw [hh]
        simpa using hno
      rw [hemp] at hmm
      cases hmm
    have hsubids : ((get_all_members s.membersFile).map Row.user_id) ⊆
        (h.map Row.user_id) := by
      intro i hi
      obtain ⟨m, hmem, rfl⟩ := List.mem_map.mp hi
      exact hids m hmem
    have hle : ((get_all_members s.membersFile).map Row.user_id).length ≤
        (h.map Row.user_id).length := by
      calc ((get_all_members s.membersFile).map Row.user_id).length
          = ((get_all_members s.membersFile).map Row.user_id).toFinset.card :=
            (List.toFinset_card_of_nodup hndR).symm
        _ ≤ (h.map Row.user_id).toFinset.card := by
            apply Finset.card_le_card
            intro i hi
            rw [List.mem_toFinset] at hi ⊢
            exact hsubids hi
        _ ≤ (h.map Row.user_id).length := List.toFinset_card_le _
    simp only [List.length_map] at hle
    omega
  obtain ⟨x, xs, hcons⟩ := List.exists_cons_of_ne_nil hrem
  obtain ⟨r, hmemr, heq⟩ := select_of_remaining_cons k s x xs hcons
  have hrrem : r ∈ eligible_remaining s := by rw [hcons]; exact hmemr
  have hfil := List.mem_filter.mp hrrem
  refine ⟨r, _, heq, hfil.1, ?_, rfl, ?_⟩
  · have := hfil.2
    rw [hh] at this
    simpa using this
  · have hgetd : s.presentedFile.getD [] = h := hh
    rw [hgetd]

/-- Invariant of iterated selections: starting from a duplicate-free
history that fits in the roster, all calls succeed and the history grows by
one fresh roster member per call. -/
theorem runSelects_spec (mem : List Row)
    (hndR : ((get_all_members mem).map Row.user_id).Nodup) :
    ∀ (ks : List Nat) (s : SysState) (h : List Row),
      s.membersFile = mem →
      get_presented_members s = h →
      (∀ x ∈ h, x ∈ get_all_members mem) →
      (h.map Row.user_id).Nodup →
      h.length + ks.length ≤ (get_all_members mem).length →
      ∃ s' h', runSelects ks s = .ok s' ∧
        s'.membersFile = mem ∧
        get_presented_members s' = h' ∧
        h'.length = h.length + ks.length ∧
        (∀ x ∈ h', x ∈ get_all_members mem) ∧
        (h'.map Row.user_id).Nodup := by
  intro ks
  induction ks with
  | nil =>
      intro s h h1 h2 h3 h4 _
      exact ⟨s, h, rfl, h1, h2, by simp, h3, h4⟩
  | cons k ks ih =>
      intro s h h1 h2 h3 h4 h5
      have hlt : h.length < (get_all_members mem).length := by
        simp only [List.length_cons] at h5
        omega
      obtain ⟨r, s', heq, hrR, hrid, hmem', hpres'⟩ :=
        select_step_mid k s mem h h1 h2 hndR h3 h4 hlt
      have h2' : get_presented_members s' = h ++ [r] := by
        simp [get_presented_members, hpres']
      have h3' : ∀ x ∈ h ++ [r], x ∈ get_all_members mem := by
        intro x hx
        rcases List.mem_append.mp hx with hx | hx
        · exact h3 x hx
        · rcases List.mem_singleton.mp hx with rfl
          exact hrR
      have h4' : ((h ++ [r]).map Row.user_id).Nodup := by
        rw [List.map_append]
        refine List.Nodup.append h4 (by simp) ?_
        intro i hi hi'
        rcases List.mem_singleton.mp hi' with rfl
        exact hrid hi
      have h5' : (h ++ [r]).length + ks.length ≤
          (get_all_members mem).length := by
        simp only [List.length_append, List.length_singleton,
          List.length_cons, List.length_nil] at h5 ⊢
        omega
      obtain ⟨s'', h'', hrun, ha, hb, hc, hd, he⟩ :=
        ih s' (h ++ [r]) hmem' h2' h3' h4' h5'
      refine ⟨s'', h'', ?_, ha, hb, ?_, hd, he⟩
      · unfold runSelects
        rw [heq]
        exact hrun
      · simp only [List.length_append, List.length_singleton,
          List.length_cons, List.length_nil] at hc ⊢
        omega

/-- Selection from an exhausted history: history is cleared before the
pick, which lands in the full roster, leaving exactly one history entry. -/
theorem select_after_full (k : Nat) (s : SysState) (mem : List Row)
    (hm : s.membersFile = mem)
    (hR : get_all_members mem ≠ [])
    (hfull : ∀ m ∈ get_all_members mem,
      m.user_id ∈ (get_presented_members s).map Row.user_id) :
    ∃ r s', select_random_presenter k s = .ok (r, s') ∧
      r ∈ get_all_members mem ∧ s'.presentedFile = some [r] := by
  subst hm
  have hrem : eligible_remaining s = [] := by
    rw [eligible_remaining_eq]
    apply List.filter_eq_nil_iff.mpr
    intro m hmem
    simpa using hfull m hmem
  obtain ⟨x, xs, hcons⟩ := List.exists_cons_of_ne_nil hR
  obtain ⟨r, hmemr, heq⟩ := select_of_remaining_nil k s x xs hrem hcons
  exact ⟨r, _, heq, by rw [hcons]; exact hmemr, rfl⟩

/-- C4: from an empty history over a fixed roster with duplicate-free ids,
`|R|` consecutive selections all succeed and leave a history in which every
roster member occurs exactly once; the `(|R|+1)`-th selection clears the
history before picking, leaving a one-element history. -/
theorem c4_exhaustion_fairness (mem : List Row) (ks : List Nat) (k' : Nat)
    (s0 : SysState)
    (hm : s0.membersFile = mem)
    (hp : s0.presentedFile = none)
    (hR : get_all_members mem ≠ [])
    (hndR : ((get_all_members mem).map Row.user_id).Nodup)
    (hlen : ks.length = (get_all_members mem).length) :
    ∃ s1 h, runSelects ks s0 = .ok s1 ∧
      s1.presentedFile = some h ∧
      h.length = (get_all_members mem).length ∧
      (∀ m ∈ get_all_members mem, h.count m = 1) ∧
      ∃ r s2, select_random_presenter k' s1 = .ok (r, s2) ∧
        r ∈ get_all_members mem ∧ s2.presentedFile = some [r] := by
  have h2 : get_presented_members s0 = [] := by
    simp [get_presented_members, hp]
  obtain ⟨s1, h, hrun, hmem1, hpres1, hlen1, hsub1, hnd1⟩ :=
    runSelects_spec mem hndR ks s0 [] hm h2 (by intro x hx; cases hx)
      (by simp) (by simp [hlen])
  have hlenh : h.length = (get_all_members mem).length := by
    simpa [hlen] using hlen1
  have hsome : s1.presentedFile = some h := by
    cases hps : s1.presentedFile with
    | none =>
        exfalso
        have : h = [] := by
          have := hpres1
          simp [get_presented_members, hps] at this
          exact this
        rw [this] at hlenh
        have := List.length_pos.mpr hR
        simp at hlenh
        omega
    | some l =>
        have : l = h := by
          have := hpres1
          simpa [get_presented_members, hps] using this
        rw [this]
  have hfull : ∀ m ∈ get_all_members mem,
      m.user_id ∈ (get_presented_members s1).map Row.user_id := by
    rw [hpres1]
    exact ids_cover (get_all_members mem) h hndR hsub1 hnd1 hlenh
  obtain ⟨r, s2, heq2, hrR, hpres2⟩ :=
    select_after_full k' s1 mem hmem1 hR hfull
  exact ⟨s1, h, hrun, hsome, hlenh,
    full_history_count (get_all_members mem) h hndR hsub1 hnd1 hlenh,
    r, s2, heq2, hrR, hpres2⟩

/-- Closed instance of `c4_exhaustion_fairness`: roster `{U1, U2}`, two
selections, then a third that resets. -/
theorem c4_witness :
    ∃ s1 h, runSelects [0, 0]
        ⟨[⟨"a", "U1", "", none⟩, ⟨"b", "U2", "", none⟩], none, none, none,
          ⟨"monday", "thursday", "23:01"⟩, [], none⟩ = .ok s1 ∧
      s1.presentedFile = some h ∧
      h.length = (get_all_members
        [⟨"a", "U1", "", none⟩, ⟨"b", "U2", "", none⟩]).length ∧
      (∀ m ∈ get_all_members [⟨"a", "U1", "", none⟩, ⟨"b", "U2", "", none⟩],
        h.count m = 1) ∧
      ∃ r s2, select_random_presenter 0 s1 = .ok (r, s2) ∧
        r ∈ get_all_members [⟨"a", "U1", "", none⟩, ⟨"b", "U2", "", none⟩] ∧
        s2.presentedFile = some [r] :=
  c4_exhaustion_fairness [⟨"a", "U1", "", none⟩, ⟨"b", "U2", "", none⟩]
    [0, 0] 0
    ⟨[⟨"a", "U1", "", none⟩, ⟨"b", "U2", "", none⟩], none, none, none,
      ⟨"monday", "thursday", "23:01"⟩, [], none⟩
    rfl rfl (by decide) (by decide) (by decide)

/-! ### Weekly reminder firing time (C3) -/

/-- C3 amended: when the server clock runs at the same offset as the
reference timezone, the weekly reminder armed from
`get_server_time_for_santiago` and the `schedule` library fires at the next
occurrence of the configured weekday `d` at time `h:m` in the reference
zone, strictly after now: the fire instant carries weekday `d` and
time-of-day `h:m`, lies in `(now, now + 7 days]`, and on the target weekday
it is the same-day instant when `h:m` has not yet passed and the instant
seven days later when it has. -/
theorem scheduleWeeklyNextRun_spec (d a now : Int)
    (ha : 0 ≤ a ∧ a < 86400) (hd : 0 ≤ d ∧ d < 7)
    (hne : ¬(wallWeekday now = d ∧ wallTod now = a)) :
    wallWeekday (scheduleWeeklyNextRun d a now) = d ∧
    wallTod (scheduleWeeklyNextRun d a now) = a ∧
    now < scheduleWeeklyNextRun d a now ∧
    scheduleWeeklyNextRun d a now ≤ now + 7 * 86400 ∧
    (wallWeekday now = d →
      (wallTod now < a →
        scheduleWeeklyNextRun d a now = now - wallTod now + a) ∧
      (a < wallTod now →
        scheduleWeeklyNextRun d a now = now - wallTod now + a + 7 * 86400)) := by
  simp only [scheduleWeeklyNextRun, wallWeekday, wallDay, wallTod] at hne ⊢
  split_ifs <;> omega

/-- With equal reference and server offsets the converted at-string is
exactly the configured time of day. -/
theorem gsts_equal_offsets (h m off now : Int)
    (hh : 0 ≤ h ∧ h < 24) (hm : 0 ≤ m ∧ m < 60) :
    get_server_time_for_santiago h m off off now = h * 3600 + m * 60 := by
  simp only [get_server_time_for_santiago, wallDay, wallTod]
  split_ifs <;> omega

theorem c3_weekly_fire_equal_offsets (h m d off now : Int)
    (hh : 0 ≤ h ∧ h < 24) (hm : 0 ≤ m ∧ m < 60) (hd : 0 ≤ d ∧ d < 7)
    (hne : ¬(wallWeekday (now + off) = d ∧
      wallTod (now + off) = h * 3600 + m * 60)) :
    wallWeekday (reminderNextFire h m d off off now + off) = d ∧
    wallTod (reminderNextFire h m d off off now + off) = h * 3600 + m * 60 ∧
    now < reminderNextFire h m d off off now ∧
    reminderNextFire h m d off off now ≤ now + 7 * 86400 ∧
    (wallWeekday (now + off) = d →
      (wallTod (now + off) < h * 3600 + m * 60 →
        reminderNextFire h m d off off now =
          now - wallTod (now + off) + h * 3600 + m * 60) ∧
      (h * 3600 + m * 60 < wallTod (now + off) →
        reminderNextFire h m d off off now =
          now - wallTod (now + off) + h * 3600 + m * 60 + 7 * 86400)) := by
  have hat := gsts_equal_offsets h m off now hh hm
  have hcomp : reminderNextFire h m d off off now =
      scheduleWeeklyNextRun d (h * 3600 + m * 60) (now + off) - off := by
    simp only [reminderNextFire, hat]
  rw [hcomp]
  have hs := scheduleWeeklyNextRun_spec d (h * 3600 + m * 60) (now + off)
    (by omega) hd hne
  have hco : scheduleWeeklyNextRun d (h * 3600 + m * 60) (now + off) - off +
      off = scheduleWeeklyNextRun d (h * 3600 + m * 60) (now + off) := by ring
  refine ⟨by rw [hco]; exact hs.1, by rw [hco]; exact hs.2.1,
    by omega, by omega, ?_⟩
  intro hwd
  obtain ⟨c1, c2⟩ := hs.2.2.2.2 hwd
  exact ⟨fun hlt => by omega, fun hlt => by omega⟩

/-- Witness for `c3_weekly_fire_equal_offsets` at the spec's two scenarios
(offset 0, week 0): now = Thursday 10:00 gives same-day Thursday 23:01
(absolute 342060); now = Thursday 23:05 gives the following Thursday 23:01
(absolute 946860). -/
theorem c3_witness :
    reminderNextFire 23 1 3 0 0 295200 = 342060 ∧
    reminderNextFire 23 1 3 0 0 342300 = 946860 := by
  have h1 := (c3_weekly_fire_equal_offsets 23 1 3 0 295200 (by decide)
    (by decide) (by decide) (by decide)).2.2.2.2 (by decide)
  have h2 := (c3_weekly_fire_equal_offsets 23 1 3 0 342300 (by decide)
    (by decide) (by decide) (by decide)).2.2.2.2 (by decide)
  have e1 := h1.1 (by decide)
  have e2 := h2.2 (by decide)
  constructor
  · rw [e1]; decide
  · rw [e2]; decide

/-- C3 counterexample: reference zone UTC-3 (offset `-10800` s), server
clock UTC (offset `0`).  `now = 306000` is Thursday 10:00 in the reference
zone (weekday 3, 23:01 not yet passed), so the claim demands a same-day
firing at reference Thursday 23:01, i.e. `now - 36000 + 82860`.  The code
instead arms the job on the server's Thursday at 02:01, whose reference
wall clock is a Wednesday — the fire instant is neither the claimed
instant nor even on the reference weekday. -/
theorem c3_counterexample :
    wallWeekday (306000 + (-10800)) = 3 ∧
    wallTod (306000 + (-10800)) < 23 * 3600 + 1 * 60 ∧
    reminderNextFire 23 1 3 (-10800) 0 306000 ≠
      306000 - wallTod (306000 + (-10800)) + (23 * 3600 + 1 * 60) ∧
    wallWeekday (reminderNextFire 23 1 3 (-10800) 0 306000 + (-10800)) ≠ 3 := by
  decide

end SlackBot
